import Mathlib

/-!
Verification of the book-map graph pipeline from `pages/map.js`.

The JavaScript source is shallowly embedded: JS strings are `List Char`
(so all operations are character-exact, including the Korean type tags),
JS `undefined`/`null` string fields are `Option (List Char)`, and JS
truthiness on string-or-null values is the predicate "present and
non-empty".  The functions `norm`, `splitList`, `normalizeDivision`,
`buildGraphData`, `getLinkEnds` and the `filteredGraph` memo from the
source are translated definition-by-definition.  The force-setup effect
is modelled as a pure function returning the registered force settings,
or `none` when the effect's early-return guard fires.
-/

namespace BookMap

/-- JS strings are modelled as lists of characters. -/
abbrev Str := List Char

/-- Whitespace characters removed by the JavaScript `String.prototype.trim`
(space, tab, line terminators, NBSP, BOM). -/
def isWS (c : Char) : Bool :=
  c = ' ' || c = '\t' || c = '\n' || c = '\r' ||
  c = '\x0b' || c = '\x0c' || c = '\u00A0' || c = '\uFEFF'

/-- JS `s.trim()`: drop whitespace from both ends. -/
def trimL (l : Str) : Str :=
  ((l.dropWhile isWS).reverse.dropWhile isWS).reverse

/-- JS truthiness for a string-or-undefined value: present and non-empty. -/
def truthyS : Option Str → Bool
  | none => false
  | some s => !s.isEmpty

/-- JS `a || b` on string-or-undefined values. -/
def jsOr (a b : Option Str) : Option Str := if truthyS a then a else b

/-- Source: `const norm = (v) => String(v || "").trim();`. -/
def norm (v : Option Str) : Str := trimL (v.getD [])

/-- The delimiter characters of the regex in `splitList`
(`/[\/|·•，、・／]/g`). -/
def isDelim (c : Char) : Bool :=
  c = '/' || c = '|' || c = '·' || c = '•' ||
  c = '，' || c = '、' || c = '・' || c = '／'

/-- JS `s.split(",")` on a character list: the accumulator holds the
current chunk in reverse. -/
def splitCommaAux : Str → Str → List Str
  | [], cur => [cur.reverse]
  | c :: rest, cur =>
    if c = ',' then cur.reverse :: splitCommaAux rest []
    else splitCommaAux rest (c :: cur)

/-- Source: `splitList` — falsy input gives `[]`; otherwise every delimiter
is replaced by a comma, the string is split on commas, and the chunks are
trimmed and the empty ones dropped (`filter(Boolean)`). -/
def splitList (input : Option Str) : List Str :=
  match input with
  | none => []
  | some s =>
    if s.isEmpty then []
    else
      ((splitCommaAux (s.map fun c => if isDelim c then ',' else c) []).map trimL).filter
        fun t => !t.isEmpty

/-- JS `hay.includes(needle)`: substring test. -/
def containsSub : Str → Str → Bool
  | [], needle => needle.isEmpty
  | c :: t, needle => needle.isPrefixOf (c :: t) || containsSub t needle

/-- Source: `normalizeDivision` — substring rules tried in order
번역 → 번역서, 원서 → 원서, 국외/해외 → 국외서, 국내 → 국내서, otherwise
the trimmed raw value (`s || null` makes the empty string `null`). -/
def normalizeDivision (v : Option Str) : Option Str :=
  let s := norm v
  if containsSub s ("번역".toList) then some ("번역서".toList)
  else if containsSub s ("원서".toList) then some ("원서".toList)
  else if containsSub s ("국외".toList) || containsSub s ("해외".toList) then
    some ("국외서".toList)
  else if containsSub s ("국내".toList) then some ("국내서".toList)
  else if s.isEmpty then none else some s

/-- A raw book record, as consumed by `buildGraphData`.  `translatorAlt`
is the source's alternate key `book["역자"]`. -/
structure BookRecord where
  id : Option Str := none
  title : Option Str := none
  author : Option Str := none
  translator : Option Str := none
  translatorAlt : Option Str := none
  category : Option Str := none
  subject : Option Str := none
  genre : Option Str := none
  level : Option Str := none
  division : Option Str := none
  image : Option Str := none
  publisher : Option Str := none
deriving DecidableEq, Repr

/-- A graph node: `{ id, label, type, ...extras }` from `addNode`.
The label of a book node is `book.title`, which may be undefined. -/
structure Node where
  id : Str
  label : Option Str
  type : Str
  bookId : Option Str := none
  image : Option Str := none
  author : Option Str := none
  publisher : Option Str := none
deriving DecidableEq, Repr

/-- A link endpoint is either a plain string id or a hydrated node
reference (the physics engine rewrites endpoints in place). -/
inductive Endpoint where
  | str (s : Str)
  | ref (n : Node)
deriving DecidableEq, Repr

/-- A typed edge `{ source, target, type }`. -/
structure Link where
  source : Endpoint
  target : Endpoint
  type : Str
deriving DecidableEq, Repr

/-- The id carried by an endpoint, as extracted by `getLinkEnds`. -/
def endStr : Endpoint → Str
  | .str s => s
  | .ref n => n.id

/-- Source: `getLinkEnds(link)` — the pair of endpoint id strings. -/
def getLinkEnds (l : Link) : Str × Str := (endStr l.source, endStr l.target)

/-- The `{ nodes, links }` output shape of the graph builder and filter. -/
@[ext]
structure GraphData where
  nodes : List Node
  links : List Link
deriving DecidableEq, Repr

/-- Builder state: the `nodes` and `links` arrays plus the key set of the
`nodeIndex` map (only membership of `nodeIndex` is ever consulted). -/
structure BuildState where
  nodes : List Node
  links : List Link
  idx : List Str
deriving DecidableEq, Repr

/-- Source: the builder's `addNode` — first write wins per id. -/
def addNode (st : BuildState) (n : Node) : BuildState :=
  if n.id ∈ st.idx then st
  else { st with nodes := st.nodes ++ [n], idx := n.id :: st.idx }

/-- Source: the builder's `addLink` — pushes `{source, target, type}`. -/
def addLink (st : BuildState) (source target ty : Str) : BuildState :=
  { st with links := st.links ++ [{ source := .str source, target := .str target, type := ty }] }

/-- The single-character string `":"` used by the template literals. -/
def colonL : Str := [':']

/-- One attribute contribution: `addNode(attrId, value, type)` followed by
`addLink(bookId, attrId, type)`, with `attrId` = `` `${type}:${value}` ``. -/
def addAttr (st : BuildState) (bid value ty : Str) : BuildState :=
  addLink (addNode st { id := ty ++ colonL ++ value, label := some value, type := ty })
    bid (ty ++ colonL ++ value) ty

/-- The body of the builder's `for (const book of books)` loop: skip when
`!book?.id` (absent or empty id), otherwise add the book node, then the
four single-valued attributes guarded by truthiness, then each token of
the three multi-valued attributes. -/
def processBook (st : BuildState) (book : BookRecord) : BuildState :=
  if !truthyS book.id then st
  else
    let bid := "book:".toList ++ book.id.getD []
    let st1 := addNode st
      { id := bid, label := book.title, type := "book".toList,
        bookId := book.id, image := book.image,
        author := book.author, publisher := book.publisher }
    let singleAttrs : List (Str × Str) :=
      [ (norm book.author, "저자".toList),
        (norm (jsOr book.translator book.translatorAlt), "역자".toList),
        (norm book.level, "단계".toList),
        ((normalizeDivision book.division).getD [], "구분".toList) ]
    let st2 := singleAttrs.foldl
      (fun st vt => if vt.1.isEmpty then st else addAttr st bid vt.1 vt.2) st1
    let multiAttrs : List (List Str × Str) :=
      [ (splitList book.category, "카테고리".toList),
        (splitList book.subject, "주제".toList),
        (splitList book.genre, "장르".toList) ]
    multiAttrs.foldl
      (fun st vs => vs.1.foldl (fun st v => addAttr st bid v vs.2) st) st2

/-- Source: `buildGraphData(books)` — fold the loop body over the records
starting from empty arrays and an empty `nodeIndex`. -/
def buildGraphData (books : List BookRecord) : GraphData :=
  let st := books.foldl processBook { nodes := [], links := [], idx := [] }
  { nodes := st.nodes, links := st.links }

/-- The sentinel tab value `"전체"` (ALL). -/
def tabAll : Str := "전체".toList

/-- The endpoint normalization `{...link, source: ends[0], target: ends[1]}`
applied to every emitted link of `filteredGraph`. -/
def normalizeLink (l : Link) : Link :=
  { l with source := .str (getLinkEnds l).1, target := .str (getLinkEnds l).2 }

/-- The `nodeIds` Set accumulation: for each link, add both endpoint ids.
A JS Set is modelled as a list consulted only through membership. -/
def collectIds (ls : List Link) (init : List Str) : List Str :=
  ls.foldl (fun acc l => (getLinkEnds l).2 :: (getLinkEnds l).1 :: acc) init

/-- The `typeLinks` const of the chip-less tab branch: the links whose
type equals the selected tab. -/
def typeLinks (base : GraphData) (tab : Str) : List Link :=
  base.links.filter fun l => decide (l.type = tab)

/-- The `targetId` const of the chip branch: `` `${deferredTab}:${deferredChip}` ``. -/
def targetIdOf (tab : Str) (chip : Option Str) : Str := tab ++ colonL ++ chip.getD []

/-- The `relatedLinks` const of the chip branch: links of the tab's type
with the target attribute id as an endpoint. -/
def relatedLinks (base : GraphData) (tab : Str) (chip : Option Str) : List Link :=
  base.links.filter fun l =>
    decide (l.type = tab ∧
      ((getLinkEnds l).1 = targetIdOf tab chip ∨ (getLinkEnds l).2 = targetIdOf tab chip))

/-- Source: the `filteredGraph` memo — empty base short-circuits; the
전체 tab returns everything with normalized endpoints; a tab without a
chip keeps the links of that type and the nodes they reference; a tab
with a chip keeps the links of that type touching `` `${tab}:${chip}` ``
and seeds the kept id set with that target id. -/
def filteredGraph (base : GraphData) (tab : Str) (chip : Option Str) : GraphData :=
  if base.nodes.isEmpty then { nodes := [], links := [] }
  else if tab = tabAll then
    { nodes := base.nodes, links := base.links.map normalizeLink }
  else if !truthyS chip then
    { nodes := base.nodes.filter fun n => decide (n.id ∈ collectIds (typeLinks base tab) []),
      links := (typeLinks base tab).map normalizeLink }
  else
    { nodes := base.nodes.filter fun n =>
        decide (n.id ∈ collectIds (relatedLinks base tab chip) [targetIdOf tab chip]),
      links := (relatedLinks base tab chip).map normalizeLink }

/-- The per-type radial ring ratio table `CONFIG.GLOBE.ringRatio`, with
the `|| 0.85` fallback. -/
def ringRatio (ty : Str) : Rat :=
  if ty = "book".toList then 72/100
  else if ty = "저자".toList then 90/100
  else if ty = "역자".toList then 88/100
  else if ty = "카테고리".toList then 58/100
  else if ty = "주제".toList then 66/100
  else if ty = "장르".toList then 50/100
  else if ty = "단계".toList then 40/100
  else if ty = "구분".toList then 80/100
  else 85/100

/-- The forces registered by the force-setup effect. -/
structure ForceSettings where
  linkDistance : Rat
  linkStrength : Rat
  chargeStrength : Rat
  globeRadius : Rat
  radialStrength : Rat
  radialRadiusOfType : Str → Rat
  collideRadiusBook : Rat
  collideRadiusOther : Rat
  collideStrength : Rat

/-- The force-setup effect of `BookMapPage`, as a pure function: the guard
`if (!graphRef.current || !width || !height) return;` yields `none`
(no force registration at all); otherwise the registered link, charge,
radial and collision settings are returned, with
`globeRadius = max(40, min(width, height) / 2 - padding)`. -/
def setupForces (hasGraphRef : Bool) (width height : Nat) : Option ForceSettings :=
  if !hasGraphRef || width = 0 || height = 0 then none
  else
    let globeRadius : Rat := max 40 (((min width height : Nat) : Rat) / 2 - 80)
    some
      { linkDistance := 60, linkStrength := 12/10, chargeStrength := -300,
        globeRadius := globeRadius, radialStrength := 15/100,
        radialRadiusOfType := fun ty => globeRadius * ringRatio ty,
        collideRadiusBook := 16, collideRadiusOther := 14,
        collideStrength := 85/100 }

/-- The seven non-book attribute type tags used by the builder. -/
def attrTypes : List Str :=
  ["저자".toList, "역자".toList, "단계".toList, "구분".toList,
   "카테고리".toList, "주제".toList, "장르".toList]

/-- The type tag encoded in a content-addressed node id: everything before
the first colon. -/
def idType (i : Str) : Str := i.takeWhile fun c => c != ':'

/-- A well-formed node: its type is the tag encoded in its id, and the
type is either `book` or one of the seven attribute tags. -/
def NodeOk (n : Node) : Prop :=
  n.type = idType n.id ∧ (n.type = "book".toList ∨ n.type ∈ attrTypes)

/-- A well-formed link over a node list: plain string endpoints, the
source names a book node, the target names a node of the link's own type,
and that type is an attribute tag. -/
def LinkOk (nodes : List Node) (l : Link) : Prop :=
  ∃ s t : Str, l.source = .str s ∧ l.target = .str t ∧
    (∃ n ∈ nodes, n.id = s ∧ n.type = "book".toList) ∧
    (∃ n ∈ nodes, n.id = t ∧ n.type = l.type) ∧
    l.type ∈ attrTypes

/-- A book node with the given id is present in the builder state. -/
def BookAt (st : BuildState) (bid : Str) : Prop :=
  ∃ n ∈ st.nodes, n.id = bid ∧ n.type = "book".toList

/-- Structural part of the builder invariant: unique node ids, the index
mirrors the node ids, and all nodes and links are well formed. -/
def Core (st : BuildState) : Prop :=
  (st.nodes.map Node.id).Nodup ∧
  (∀ i : Str, i ∈ st.idx ↔ i ∈ st.nodes.map Node.id) ∧
  (∀ n ∈ st.nodes, NodeOk n) ∧
  (∀ l ∈ st.links, LinkOk st.nodes l)

/-- Every non-book node has an incident link targeting it. -/
def Orphan (st : BuildState) : Prop :=
  ∀ n ∈ st.nodes, n.type ≠ "book".toList → ∃ l ∈ st.links, l.target = .str n.id

/-- Full builder invariant. -/
def Inv (st : BuildState) : Prop := Core st ∧ Orphan st

lemma takeWhile_append_colon (pre post : Str) (h : ∀ c ∈ pre, (c != ':') = true) :
    (pre ++ ':' :: post).takeWhile (fun c => c != ':') = pre := by
  induction pre with
  | nil => simp
  | cons c t ih =>
    have hc := h c (List.mem_cons_self c t)
    simp only [List.cons_append, List.takeWhile_cons, hc, if_true]
    rw [ih fun x hx => h x (List.mem_cons_of_mem _ hx)]

lemma idType_colon (ty v : Str) (h : ∀ c ∈ ty, (c != ':') = true) :
    idType (ty ++ colonL ++ v) = ty := by
  have hrw : ty ++ colonL ++ v = ty ++ ':' :: v := by
    simp [colonL]
  rw [idType, hrw, takeWhile_append_colon ty v h]

lemma LinkOk.mono {ns ns' : List Node} (hsub : ∀ x ∈ ns, x ∈ ns') {l : Link} :
    LinkOk ns l → LinkOk ns' l := by
  rintro ⟨s, t, h1, h2, ⟨n1, hn1, hi1, ht1⟩, ⟨n2, hn2, hi2, ht2⟩, hty⟩
  exact ⟨s, t, h1, h2, ⟨n1, hsub n1 hn1, hi1, ht1⟩, ⟨n2, hsub n2 hn2, hi2, ht2⟩, hty⟩

lemma mem_addNode_nodes {st : BuildState} {n : Node} {x : Node} (hx : x ∈ st.nodes) :
    x ∈ (addNode st n).nodes := by
  unfold addNode
  split
  · exact hx
  · exact List.mem_append_left _ hx

lemma addNode_links (st : BuildState) (n : Node) : (addNode st n).links = st.links := by
  unfold addNode
  split <;> rfl

lemma addLink_nodes (st : BuildState) (s t ty : Str) : (addLink st s t ty).nodes = st.nodes := rfl

lemma core_addNode {st : BuildState} {n : Node} (hc : Core st) (hok : NodeOk n) :
    Core (addNode st n) := by
  obtain ⟨hnd, hidx, hnode, hlink⟩ := hc
  by_cases h : n.id ∈ st.idx
  · simpa [addNode, h] using ⟨hnd, hidx, hnode, hlink⟩
  · have hnotid : n.id ∉ st.nodes.map Node.id := fun hmem => h ((hidx n.id).mpr hmem)
    refine ⟨?_, ?_, ?_, ?_⟩ <;> simp only [addNode, h, if_neg, if_false]
    · simp only [List.map_append, List.map_cons, List.map_nil]
      rw [List.nodup_append]
      exact ⟨hnd, List.nodup_singleton _, by
        intro a ha hb
        simp only [List.mem_singleton] at hb
        exact hnotid (hb ▸ ha)⟩
    · intro i
      simp only [List.mem_cons, List.map_append, List.mem_append, List.map_cons,
        List.map_nil, List.mem_singleton, hidx i]
      tauto
    · intro m hm
      rcases List.mem_append.mp hm with hm | hm
      · exact hnode m hm
      · simp only [List.mem_singleton] at hm
        exact hm ▸ hok
    · intro l hl
      exact (hlink l hl).mono fun x hx => List.mem_append_left _ hx

lemma orphan_addNode_book {st : BuildState} {n : Node} (ho : Orphan st)
    (hbook : n.type = "book".toList) : Orphan (addNode st n) := by
  unfold addNode
  split
  · exact ho
  · intro m hm hmt
    rcases List.mem_append.mp hm with hm | hm
    · exact ho m hm hmt
    · simp only [List.mem_singleton] at hm
      exact absurd (hm ▸ hbook) hmt

lemma bookAt_addNode {st : BuildState} {n : Node} (hc : Core st) (hok : NodeOk n)
    (hbook : n.type = "book".toList) : BookAt (addNode st n) n.id := by
  by_cases h : n.id ∈ st.idx
  · obtain ⟨hnd, hidx, hnode, hlink⟩ := hc
    obtain ⟨m, hm, hmid⟩ := List.mem_map.mp ((hidx n.id).mp h)
    refine ⟨m, by simpa [addNode, h] using hm, hmid, ?_⟩
    have := (hnode m hm).1
    rw [this, hmid, ← hok.1, hbook]
  · refine ⟨n, ?_, rfl, hbook⟩
    simp [addNode, h]

lemma bookAt_addNode_mono {st : BuildState} {n : Node} {bid : Str} (hB : BookAt st bid) :
    BookAt (addNode st n) bid := by
  obtain ⟨m, hm, hmid, hmt⟩ := hB
  exact ⟨m, mem_addNode_nodes hm, hmid, hmt⟩

lemma bookAt_addLink {st : BuildState} {s t ty bid : Str} (hB : BookAt st bid) :
    BookAt (addLink st s t ty) bid := hB

lemma addNode_of_mem {st : BuildState} {n : Node} (h : n.id ∈ st.idx) :
    addNode st n = st := if_pos h

lemma addNode_of_not_mem {st : BuildState} {n : Node} (h : n.id ∉ st.idx) :
    addNode st n = { st with nodes := st.nodes ++ [n], idx := n.id :: st.idx } := if_neg h

lemma attrAt_addNode {st : BuildState} {n : Node} (hc : Core st)
    (hok : n.type = idType n.id) :
    ∃ m ∈ (addNode st n).nodes, m.id = n.id ∧ m.type = n.type := by
  obtain ⟨hnd, hidx, hnode, hlink⟩ := hc
  by_cases h : n.id ∈ st.idx
  · obtain ⟨m, hm, hmid⟩ := List.mem_map.mp ((hidx _).mp h)
    refine ⟨m, mem_addNode_nodes hm, hmid, ?_⟩
    rw [(hnode m hm).1, hmid, ← hok]
  · rw [addNode_of_not_mem h]
    exact ⟨n, List.mem_append_right _ (List.mem_singleton.mpr rfl), rfl, rfl⟩


lemma core_addLink {st : BuildState} {s t ty : Str} (hc : Core st)
    (h0 : LinkOk st.nodes { source := .str s, target := .str t, type := ty }) :
    Core (addLink st s t ty) := by
  obtain ⟨hnd, hidx, hnode, hlink⟩ := hc
  refine ⟨hnd, hidx, hnode, ?_⟩
  intro l hl
  rcases List.mem_append.mp hl with hl | hl
  · exact hlink l hl
  · simp only [List.mem_singleton] at hl
    exact hl ▸ h0

lemma addAttr_nodes (st : BuildState) (bid v ty : Str) :
    (addAttr st bid v ty).nodes
      = (addNode st { id := ty ++ colonL ++ v, label := some v, type := ty }).nodes := rfl

lemma addAttr_links (st : BuildState) (bid v ty : Str) :
    (addAttr st bid v ty).links
      = st.links ++ [{ source := .str bid, target := .str (ty ++ colonL ++ v), type := ty }] := by
  show (addNode st { id := ty ++ colonL ++ v, label := some v, type := ty }).links ++ _ = _
  rw [addNode_links]

lemma orphan_addAttr (v ty : Str) {st : BuildState} {bid : Str} (ho : Orphan st) :
    Orphan (addAttr st bid v ty) := by
  intro m hm hmt
  rw [addAttr_nodes] at hm
  rw [addAttr_links]
  by_cases h : (ty ++ colonL ++ v : Str) ∈ st.idx
  · rw [addNode_of_mem (n := { id := ty ++ colonL ++ v, label := some v, type := ty }) h] at hm
    obtain ⟨l, hl, hlt⟩ := ho m hm hmt
    exact ⟨l, List.mem_append_left _ hl, hlt⟩
  · rw [addNode_of_not_mem (n := { id := ty ++ colonL ++ v, label := some v, type := ty }) h] at hm
    rcases List.mem_append.mp hm with hm | hm
    · obtain ⟨l, hl, hlt⟩ := ho m hm hmt
      exact ⟨l, List.mem_append_left _ hl, hlt⟩
    · simp only [List.mem_singleton] at hm
      refine ⟨{ source := .str bid, target := .str (ty ++ colonL ++ v), type := ty },
        List.mem_append_right _ (List.mem_singleton.mpr rfl), ?_⟩
      rw [hm]

lemma inv_addAttr (v ty : Str) {st : BuildState} {bid : Str} (hInv : Inv st)
    (hB : BookAt st bid) (hty : ty ∈ attrTypes) (hcf : ∀ c ∈ ty, (c != ':') = true) :
    Inv (addAttr st bid v ty) ∧ BookAt (addAttr st bid v ty) bid := by
  obtain ⟨hc, ho⟩ := hInv
  have hokA : NodeOk { id := ty ++ colonL ++ v, label := some v, type := ty } :=
    ⟨(idType_colon ty v hcf).symm, Or.inr hty⟩
  have hcA : Core (addNode st { id := ty ++ colonL ++ v, label := some v, type := ty }) :=
    core_addNode hc hokA
  obtain ⟨mb, hmb, hmbid, hmbt⟩ := hB
  have hB' : BookAt (addNode st { id := ty ++ colonL ++ v, label := some v, type := ty }) bid :=
    ⟨mb, mem_addNode_nodes hmb, hmbid, hmbt⟩
  obtain ⟨ma, hma, hmaid, hmat⟩ :=
    attrAt_addNode (n := { id := ty ++ colonL ++ v, label := some v, type := ty }) hc
      (idType_colon ty v hcf).symm
  exact ⟨⟨core_addLink hcA ⟨bid, ty ++ colonL ++ v, rfl, rfl, hB', ⟨ma, hma, hmaid, hmat⟩, hty⟩,
    orphan_addAttr v ty ho⟩, bookAt_addLink hB'⟩

lemma inv_guardAttr (v ty : Str) {st : BuildState} {bid : Str} (hInv : Inv st)
    (hB : BookAt st bid) (hty : ty ∈ attrTypes) (hcf : ∀ c ∈ ty, (c != ':') = true) :
    Inv (if v.isEmpty then st else addAttr st bid v ty) ∧
      BookAt (if v.isEmpty then st else addAttr st bid v ty) bid := by
  split
  · exact ⟨hInv, hB⟩
  · exact inv_addAttr v ty hInv hB hty hcf

lemma inv_foldAttrs (vs : List Str) (ty : Str) {st : BuildState} {bid : Str} (hInv : Inv st)
    (hB : BookAt st bid) (hty : ty ∈ attrTypes) (hcf : ∀ c ∈ ty, (c != ':') = true) :
    Inv (vs.foldl (fun st v => addAttr st bid v ty) st) ∧
      BookAt (vs.foldl (fun st v => addAttr st bid v ty) st) bid := by
  induction vs generalizing st with
  | nil => exact ⟨hInv, hB⟩
  | cons v rest ih =>
    obtain ⟨hInv', hB'⟩ := inv_addAttr v ty hInv hB hty hcf
    exact ih hInv' hB'

lemma inv_processBook {st : BuildState} (b : BookRecord) (hInv : Inv st) :
    Inv (processBook st b) := by
  by_cases hb : truthyS b.id
  · rw [processBook, if_neg (by simp [hb])]
    obtain ⟨hc, ho⟩ := hInv
    have hbid : ("book:".toList ++ b.id.getD [] : Str)
        = "book".toList ++ colonL ++ b.id.getD [] := rfl
    have hcfB : ∀ c ∈ ("book".toList : Str), (c != ':') = true := by decide
    have hokB : NodeOk
        { id := "book:".toList ++ b.id.getD [], label := b.title, type := "book".toList,
          bookId := b.id, image := b.image, author := b.author, publisher := b.publisher } := by
      refine ⟨?_, Or.inl rfl⟩
      show ("book".toList : Str) = idType ("book:".toList ++ b.id.getD [])
      rw [hbid, idType_colon _ _ hcfB]
    have hInv1 : Inv (addNode st
        { id := "book:".toList ++ b.id.getD [], label := b.title, type := "book".toList,
          bookId := b.id, image := b.image, author := b.author, publisher := b.publisher }) :=
      ⟨core_addNode hc hokB, orphan_addNode_book ho rfl⟩
    have hB1 : BookAt (addNode st
        { id := "book:".toList ++ b.id.getD [], label := b.title, type := "book".toList,
          bookId := b.id, image := b.image, author := b.author, publisher := b.publisher })
        ("book:".toList ++ b.id.getD []) :=
      bookAt_addNode hc hokB rfl
    simp only [List.foldl]
    obtain ⟨hInv2, hB2⟩ :=
      inv_guardAttr (norm b.author) ("저자".toList) hInv1 hB1 (by decide) (by decide)
    obtain ⟨hInv3, hB3⟩ :=
      inv_guardAttr (norm (jsOr b.translator b.translatorAlt)) ("역자".toList) hInv2 hB2
        (by decide) (by decide)
    obtain ⟨hInv4, hB4⟩ :=
      inv_guardAttr (norm b.level) ("단계".toList) hInv3 hB3 (by decide) (by decide)
    obtain ⟨hInv5, hB5⟩ :=
      inv_guardAttr ((normalizeDivision b.division).getD []) ("구분".toList) hInv4 hB4
        (by decide) (by decide)
    obtain ⟨hInv6, hB6⟩ :=
      inv_foldAttrs (splitList b.category) ("카테고리".toList) hInv5 hB5 (by decide) (by decide)
    obtain ⟨hInv7, hB7⟩ :=
      inv_foldAttrs (splitList b.subject) ("주제".toList) hInv6 hB6 (by decide) (by decide)
    exact (inv_foldAttrs (splitList b.genre) ("장르".toList) hInv7 hB7 (by decide) (by decide)).1
  · rw [processBook, if_pos (by simp [hb])]
    exact hInv

/-- The fold of the builder loop, exposed for the invariant lemmas. -/
def buildState (books : List BookRecord) : BuildState :=
  books.foldl processBook { nodes := [], links := [], idx := [] }

lemma buildGraphData_eq (books : List BookRecord) :
    buildGraphData books
      = { nodes := (buildState books).nodes, links := (buildState books).links } :=
  rfl

lemma inv_buildState (books : List BookRecord) : Inv (buildState books) := by
  have hinit : Inv { nodes := [], links := [], idx := [] } :=
    ⟨⟨by simp, by simp, by simp, by simp⟩, by simp [Orphan]⟩
  rw [buildState]
  generalize hst : ({ nodes := [], links := [], idx := [] } : BuildState) = st0
  rw [hst] at hinit
  clear hst
  induction books generalizing st0 with
  | nil => exact hinit
  | cons b rest ih => exact ih _ (inv_processBook b hinit)

lemma normalizeLink_type (l : Link) : (normalizeLink l).type = l.type := rfl

lemma normalizeLink_ends (l : Link) : getLinkEnds (normalizeLink l) = getLinkEnds l := rfl

lemma normalizeLink_norm (l : Link) : normalizeLink (normalizeLink l) = normalizeLink l := rfl

lemma map_normalizeLink_norm (ls : List Link) :
    (ls.map normalizeLink).map normalizeLink = ls.map normalizeLink := by
  rw [List.map_map]
  have hfe : normalizeLink ∘ normalizeLink = normalizeLink := funext normalizeLink_norm
  rw [hfe]

lemma mem_collectIds (ls : List Link) (init : List Str) (a : Str) :
    a ∈ collectIds ls init ↔
      a ∈ init ∨ ∃ l ∈ ls, a = (getLinkEnds l).1 ∨ a = (getLinkEnds l).2 := by
  induction ls generalizing init with
  | nil => simp [collectIds]
  | cons l t ih =>
    rw [show collectIds (l :: t) init
        = collectIds t ((getLinkEnds l).2 :: (getLinkEnds l).1 :: init) from rfl, ih]
    constructor
    · rintro (h | ⟨l', hl', h⟩)
      · rcases List.mem_cons.mp h with h | h
        · exact Or.inr ⟨l, List.mem_cons_self l t, Or.inr h⟩
        rcases List.mem_cons.mp h with h | h
        · exact Or.inr ⟨l, List.mem_cons_self l t, Or.inl h⟩
        · exact Or.inl h
      · exact Or.inr ⟨l', List.mem_cons_of_mem l hl', h⟩
    · rintro (h | ⟨l', hl', h⟩)
      · exact Or.inl (List.mem_cons_of_mem _ (List.mem_cons_of_mem _ h))
      · rcases List.mem_cons.mp hl' with rfl | hl'
        · rcases h with h | h
          · exact Or.inl (List.mem_cons_of_mem _ (List.mem_cons.mpr (Or.inl h)))
          · exact Or.inl (List.mem_cons.mpr (Or.inl h))
        · exact Or.inr ⟨l', hl', h⟩

lemma collectIds_map_normalize (ls : List Link) (init : List Str) (a : Str) :
    a ∈ collectIds (ls.map normalizeLink) init ↔ a ∈ collectIds ls init := by
  rw [mem_collectIds, mem_collectIds]
  constructor
  · rintro (h | ⟨l, hl, h⟩)
    · exact Or.inl h
    · obtain ⟨l0, hl0, rfl⟩ := List.mem_map.mp hl
      exact Or.inr ⟨l0, hl0, by rwa [normalizeLink_ends] at h⟩
  · rintro (h | ⟨l, hl, h⟩)
    · exact Or.inl h
    · exact Or.inr ⟨normalizeLink l, List.mem_map.mpr ⟨l, hl, rfl⟩, by rwa [normalizeLink_ends]⟩

lemma build_nodup (books : List BookRecord) :
    ((buildGraphData books).nodes.map Node.id).Nodup :=
  (inv_buildState books).1.1

lemma build_linkOk (books : List BookRecord) {l : Link}
    (hl : l ∈ (buildGraphData books).links) : LinkOk (buildGraphData books).nodes l :=
  (inv_buildState books).1.2.2.2 l hl

lemma build_orphanFree (books : List BookRecord) {n : Node}
    (hn : n ∈ (buildGraphData books).nodes) (ht : n.type ≠ "book".toList) :
    ∃ l ∈ (buildGraphData books).links, l.target = .str n.id :=
  (inv_buildState books).2 n hn ht

lemma filteredGraph_empty {base : GraphData} (tab : Str) (chip : Option Str)
    (h : base.nodes = []) : filteredGraph base tab chip = { nodes := [], links := [] } := by
  rw [filteredGraph, if_pos (List.isEmpty_iff.mpr h)]

lemma filteredGraph_all {base : GraphData} (chip : Option Str) (h : base.nodes ≠ []) :
    filteredGraph base tabAll chip
      = { nodes := base.nodes, links := base.links.map normalizeLink } := by
  rw [filteredGraph, if_neg (by simp [List.isEmpty_iff, h]), if_pos rfl]

lemma filteredGraph_tab {base : GraphData} {tab : Str} {chip : Option Str}
    (h : base.nodes ≠ []) (ht : tab ≠ tabAll) (hc : truthyS chip = false) :
    filteredGraph base tab chip
      = { nodes := base.nodes.filter fun n =>
            decide (n.id ∈ collectIds (typeLinks base tab) []),
          links := (typeLinks base tab).map normalizeLink } := by
  rw [filteredGraph, if_neg (by simp [List.isEmpty_iff, h]), if_neg ht, if_pos (by simp [hc])]

lemma filteredGraph_chip {base : GraphData} {tab : Str} {chip : Option Str}
    (h : base.nodes ≠ []) (ht : tab ≠ tabAll) (hc : truthyS chip = true) :
    filteredGraph base tab chip
      = { nodes := base.nodes.filter fun n =>
            decide (n.id ∈ collectIds (relatedLinks base tab chip) [targetIdOf tab chip]),
          links := (relatedLinks base tab chip).map normalizeLink } := by
  rw [filteredGraph, if_neg (by simp [List.isEmpty_iff, h]), if_neg ht, if_neg (by simp [hc])]

lemma containsSub_iff (hay needle : Str) :
    containsSub hay needle = true ↔ needle <:+: hay := by
  induction hay with
  | nil => simp [containsSub, List.isEmpty_iff, List.infix_nil]
  | cons c t ih =>
    rw [containsSub]
    simp only [Bool.or_eq_true, List.isPrefixOf_iff_prefix, ih, List.infix_cons_iff]

lemma infix_dropWhile_not (p : Char → Bool) (needle : Str) (hne : needle ≠ [])
    (hm : ∀ c ∈ needle, p c = false) :
    ∀ l : Str, needle <:+: l → needle <:+: l.dropWhile p := by
  intro l
  induction l with
  | nil => intro h; simpa using h
  | cons c t ih =>
    intro h
    rw [List.dropWhile_cons]
    by_cases hc : p c = true
    · rw [if_pos hc]
      rcases List.infix_cons_iff.mp h with h | h
      · obtain ⟨s, hs⟩ := h
        cases needle with
        | nil => exact absurd rfl hne
        | cons d nd =>
          injection hs with h1 h2
          have hdw := hm d (List.mem_cons_self d nd)
          rw [h1] at hdw
          rw [hdw] at hc
          exact Bool.noConfusion hc
      · exact ih h
    · rw [if_neg hc]
      exact h

lemma infix_trimL (needle : Str) (hne : needle ≠ [])
    (hm : ∀ c ∈ needle, isWS c = false) {l : Str} (h : needle <:+: l) :
    needle <:+: trimL l := by
  have h1 : needle <:+: l.dropWhile isWS := infix_dropWhile_not isWS needle hne hm l h
  have h2 : needle.reverse <:+: (l.dropWhile isWS).reverse := List.reverse_infix.mpr h1
  have hne' : needle.reverse ≠ [] := by simpa using hne
  have hm' : ∀ c ∈ needle.reverse, isWS c = false := fun c hc => hm c (List.mem_reverse.mp hc)
  have h3 := infix_dropWhile_not isWS needle.reverse hne' hm' _ h2
  have h3' : needle.reverse <:+: (((l.dropWhile isWS).reverse.dropWhile isWS).reverse).reverse := by
    rwa [List.reverse_reverse]
  exact List.reverse_infix.mp h3'

lemma dropWhile_dropWhile (p : Char → Bool) (l : Str) :
    (l.dropWhile p).dropWhile p = l.dropWhile p := by
  induction l with
  | nil => rfl
  | cons c t ih =>
    rw [List.dropWhile_cons]
    by_cases hc : p c = true
    · rw [if_pos hc]
      exact ih
    · rw [if_neg hc, List.dropWhile_cons, if_neg hc]

lemma dropWhile_eq_self_of_prefix {p : Char → Bool} {l pre : Str}
    (hl : l.dropWhile p = l) (hp : pre <+: l) : pre.dropWhile p = pre := by
  cases pre with
  | nil => rfl
  | cons c t =>
    obtain ⟨s, hs⟩ := hp
    have hpc : p c = false := by
      by_cases hcc : p c = true
      · exfalso
        have hdw : l.dropWhile p = (t ++ s).dropWhile p := by
          rw [← hs, List.cons_append, List.dropWhile_cons, if_pos hcc]
        have hlen : l.length = ((t ++ s).dropWhile p).length :=
          congrArg List.length (hl.symm.trans hdw)
        have h1 : ((t ++ s).dropWhile p).length ≤ (t ++ s).length :=
          ((List.dropWhile_suffix p).sublist).length_le
        have h2 : l.length = (c :: (t ++ s)).length := by
          rw [← hs]
          simp
        simp only [List.length_cons, List.length_append] at h1 h2
        omega
      · revert hcc
        cases p c <;> simp
    rw [List.dropWhile_cons, if_neg (by simp [hpc])]

lemma trimL_head_ok (l : Str) : (trimL l).dropWhile isWS = trimL l := by
  have hA : (l.dropWhile isWS).dropWhile isWS = l.dropWhile isWS := dropWhile_dropWhile isWS l
  have hpre : trimL l <+: l.dropWhile isWS := by
    have hsuf : (l.dropWhile isWS).reverse.dropWhile isWS <:+ (l.dropWhile isWS).reverse :=
      List.dropWhile_suffix isWS
    have hsuf' : (((l.dropWhile isWS).reverse.dropWhile isWS).reverse).reverse
        <:+ (l.dropWhile isWS).reverse := by
      rwa [List.reverse_reverse]
    exact List.reverse_suffix.mp hsuf'
  exact dropWhile_eq_self_of_prefix hA hpre

lemma trimL_trimL (l : Str) : trimL (trimL l) = trimL l := by
  rw [show trimL (trimL l)
      = (((trimL l).dropWhile isWS).reverse.dropWhile isWS).reverse from rfl]
  rw [trimL_head_ok]
  have hrev : (trimL l).reverse = (l.dropWhile isWS).reverse.dropWhile isWS := by
    rw [trimL, List.reverse_reverse]
  rw [hrev, dropWhile_dropWhile, ← hrev, List.reverse_reverse]

lemma splitList_tokens {s : Option Str} {t : Str} (ht : t ∈ splitList s) :
    t ≠ [] ∧ trimL t = t := by
  match s with
  | none => simp [splitList] at ht
  | some raw =>
    rw [splitList] at ht
    split at ht
    · simp at ht
    · obtain ⟨ht1, ht2⟩ := List.mem_filter.mp ht
      obtain ⟨piece, hp, rfl⟩ := List.mem_map.mp ht1
      refine ⟨?_, trimL_trimL piece⟩
      simpa [List.isEmpty_iff] using ht2

lemma processBook_skip {st : BuildState} {b : BookRecord} (hb : truthyS b.id = false) :
    processBook st b = st := by
  rw [processBook, if_pos (by simp [hb])]

lemma foldl_processBook_filter (books : List BookRecord) (st : BuildState) :
    books.foldl processBook st
      = (books.filter fun b => truthyS b.id).foldl processBook st := by
  induction books generalizing st with
  | nil => rfl
  | cons b rest ih =>
    by_cases hb : truthyS b.id
    · rw [List.foldl_cons, List.filter_cons_of_pos (by simp [hb]), List.foldl_cons, ih]
    · have hb' : truthyS b.id = false := by
        revert hb
        cases truthyS b.id <;> simp
      rw [List.foldl_cons, processBook_skip hb', List.filter_cons_of_neg (by simp [hb']), ih]

/-- Scenario A input: two books sharing one author. -/
def scenarioA : List BookRecord :=
  [ { id := some ("1".toList), title := some ("T1".toList), author := some ("A".toList) },
    { id := some ("2".toList), title := some ("T2".toList), author := some ("A".toList) } ]

/-- Scenario B input: one book with a multi-valued category field. -/
def scenarioB : List BookRecord :=
  [ { id := some ("1".toList), title := some ("T".toList),
      category := some ("사회/정치, 역사".toList) } ]

/-- A record with an id but no title. -/
def recNoTitle : BookRecord :=
  { id := some ("1".toList), author := some ("A".toList) }

/-- A record with only an id and a title, no attributes at all. -/
def recBare : BookRecord :=
  { id := some ("1".toList), title := some ("T".toList) }

/-- C1: `buildGraphData` always produces pairwise-unique node ids, and on
the Scenario A input (two books sharing author A) it yields exactly the
three nodes `book:1`, `저자:A`, `book:2` and exactly two links: the shared
author produces a single author node. -/
theorem C1_unique_node_ids :
    (∀ books : List BookRecord, ((buildGraphData books).nodes.map Node.id).Nodup) ∧
    (buildGraphData scenarioA).nodes.length = 3 ∧
    (buildGraphData scenarioA).links.length = 2 ∧
    (buildGraphData scenarioA).nodes.map Node.id
      = ["book:1".toList, "저자:A".toList, "book:2".toList] := by
  refine ⟨build_nodup, ?_, ?_, ?_⟩ <;> decide

/-- C2: every link of every built graph is oriented book → attribute: its
source id names a node of type `book`, its target id names a node whose
type equals the link's type, and that type is one of the seven attribute
tags (never `book`). -/
theorem C2_links_book_to_attribute :
    ∀ (books : List BookRecord), ∀ l ∈ (buildGraphData books).links,
      (∃ n ∈ (buildGraphData books).nodes, n.id = endStr l.source ∧ n.type = "book".toList) ∧
      (∃ n ∈ (buildGraphData books).nodes, n.id = endStr l.target ∧ n.type = l.type) ∧
      l.type ∈ attrTypes ∧ l.type ≠ "book".toList := by
  intro books l hl
  obtain ⟨s, t, hs, ht, hbook, hattr, hty⟩ := build_linkOk books hl
  refine ⟨?_, ?_, hty, ?_⟩
  · rw [hs]
    exact hbook
  · rw [ht]
    exact hattr
  · intro hEq
    rw [hEq] at hty
    revert hty
    decide

/-- Witness for C2 at the first link of Scenario A. -/
theorem C2_witness :
    (∃ n ∈ (buildGraphData scenarioA).nodes,
        n.id = endStr (Endpoint.str ("book:1".toList)) ∧ n.type = "book".toList) ∧
    (∃ n ∈ (buildGraphData scenarioA).nodes,
        n.id = endStr (Endpoint.str ("저자:A".toList)) ∧ n.type = "저자".toList) ∧
    ("저자".toList : Str) ∈ attrTypes ∧ ("저자".toList : Str) ≠ "book".toList :=
  C2_links_book_to_attribute scenarioA
    { source := .str ("book:1".toList), target := .str ("저자:A".toList), type := "저자".toList }
    (by decide)

/-- C3 counterexample: a record with an id but no title is NOT skipped by
`buildGraphData` — it still contributes its book node and its author link,
contradicting the claim that records missing a title contribute nothing. -/
theorem C3_counterexample :
    recNoTitle.title = none ∧
    (buildGraphData [recNoTitle]).nodes.length = 2 ∧
    (buildGraphData [recNoTitle]).links.length = 1 := by
  refine ⟨rfl, ?_, ?_⟩ <;> decide

/-- C3 amended: `buildGraphData` silently skips exactly the records with a
missing or empty id (they contribute no nodes and no links, and the
builder is total, so it never throws); records missing only the title are
kept — title filtering happens upstream in the fetch normalization. -/
theorem C3_skips_only_missing_id :
    ∀ books : List BookRecord,
      buildGraphData books = buildGraphData (books.filter fun b => truthyS b.id) := by
  intro books
  rw [buildGraphData_eq, buildGraphData_eq]
  have h : buildState books = buildState (books.filter fun b => truthyS b.id) :=
    foldl_processBook_filter books { nodes := [], links := [], idx := [] }
  rw [h]

/-- C4: the division rules fire in the fixed order 번역, 원서, 국외/해외,
국내, pass-through; in particular any raw value containing both 국내 and
번역 normalizes to 번역서, as in Scenario C. -/
theorem C4_normalizeDivision_priority :
    (∀ v : Str, "번역".toList <:+: v → "국내".toList <:+: v →
        normalizeDivision (some v) = some ("번역서".toList)) ∧
    (∀ v : Option Str, containsSub (norm v) ("번역".toList) = true →
        normalizeDivision v = some ("번역서".toList)) ∧
    (∀ v : Option Str, containsSub (norm v) ("번역".toList) = false →
        containsSub (norm v) ("원서".toList) = true →
        normalizeDivision v = some ("원서".toList)) ∧
    (∀ v : Option Str, containsSub (norm v) ("번역".toList) = false →
        containsSub (norm v) ("원서".toList) = false →
        (containsSub (norm v) ("국외".toList) = true ∨
          containsSub (norm v) ("해외".toList) = true) →
        normalizeDivision v = some ("국외서".toList)) ∧
    (∀ v : Option Str, containsSub (norm v) ("번역".toList) = false →
        containsSub (norm v) ("원서".toList) = false →
        containsSub (norm v) ("국외".toList) = false →
        containsSub (norm v) ("해외".toList) = false →
        containsSub (norm v) ("국내".toList) = true →
        normalizeDivision v = some ("국내서".toList)) ∧
    (∀ v : Option Str, containsSub (norm v) ("번역".toList) = false →
        containsSub (norm v) ("원서".toList) = false →
        containsSub (norm v) ("국외".toList) = false →
        containsSub (norm v) ("해외".toList) = false →
        containsSub (norm v) ("국내".toList) = false →
        normalizeDivision v = if (norm v).isEmpty then none else some (norm v)) ∧
    normalizeDivision (some ("국내 번역서".toList)) = some ("번역서".toList) := by
  have hmain : ∀ v : Option Str, containsSub (norm v) ("번역".toList) = true →
      normalizeDivision v = some ("번역서".toList) := by
    intro v h
    simp only [normalizeDivision]
    rw [if_pos h]
  refine ⟨?_, hmain, ?_, ?_, ?_, ?_, by decide⟩
  · intro v h1 _h2
    apply hmain
    rw [containsSub_iff]
    exact infix_trimL ("번역".toList) (by decide) (by decide) h1
  · intro v h1 h2
    simp only [normalizeDivision]
    rw [if_neg (by rw [h1]; decide), if_pos h2]
  · intro v h1 h2 h3
    simp only [normalizeDivision]
    rcases h3 with h3 | h3
    · rw [if_neg (by rw [h1]; decide), if_neg (by rw [h2]; decide),
        if_pos (by rw [h3]; exact Bool.true_or _)]
    · rw [if_neg (by rw [h1]; decide), if_neg (by rw [h2]; decide),
        if_pos (by rw [h3]; exact Bool.or_true _)]
  · intro v h1 h2 h3 h4 h5
    simp only [normalizeDivision]
    rw [if_neg (by rw [h1]; decide), if_neg (by rw [h2]; decide),
      if_neg (by rw [h3, h4]; decide), if_pos h5]
  · intro v h1 h2 h3 h4 h5
    simp only [normalizeDivision]
    rw [if_neg (by rw [h1]; decide), if_neg (by rw [h2]; decide),
      if_neg (by rw [h3, h4]; decide), if_neg (by rw [h5]; decide)]

/-- Witness for C4 at the Scenario C input, via the general rule. -/
theorem C4_witness :
    normalizeDivision (some ("국내 번역서".toList)) = some ("번역서".toList) :=
  C4_normalizeDivision_priority.1 ("국내 번역서".toList) (by decide) (by decide)

/-- C5: `splitList` yields trimmed, non-empty tokens; the Scenario B
category value splits into 사회, 정치, 역사, which become three category
nodes and three category links of the book. -/
theorem C5_splitList_tokens_and_edges :
    (∀ (s : Option Str), ∀ t ∈ splitList s, t ≠ [] ∧ trimL t = t) ∧
    splitList (some ("사회/정치, 역사".toList))
      = ["사회".toList, "정치".toList, "역사".toList] ∧
    (buildGraphData scenarioB).nodes.map Node.id
      = ["book:1".toList, "카테고리:사회".toList, "카테고리:정치".toList,
          "카테고리:역사".toList] ∧
    ((buildGraphData scenarioB).links.filter fun l =>
        decide (l.type = "카테고리".toList)).length = 3 ∧
    (buildGraphData scenarioB).links.length = 3 := by
  refine ⟨fun s t ht => splitList_tokens ht, ?_, ?_, ?_, ?_⟩ <;> decide

/-- Witness for C5 at the first token of the Scenario B category value. -/
theorem C5_witness :
    ("사회".toList : Str) ≠ [] ∧ trimL ("사회".toList) = "사회".toList :=
  C5_splitList_tokens_and_edges.1 (some ("사회/정치, 역사".toList)) ("사회".toList) (by decide)

/-- C9: with an unmeasured viewport (zero width or zero height, or no
graph ref) the force-setup effect registers nothing at all; whenever it
does register forces, the globe radius is at least 40, never degenerate. -/
theorem C9_setupForces_noop_when_unmeasured :
    (∀ (g : Bool) (w h : Nat), w = 0 ∨ h = 0 → setupForces g w h = none) ∧
    (∀ (g : Bool) (w h : Nat) (fs : ForceSettings),
        setupForces g w h = some fs → 40 ≤ fs.globeRadius) := by
  constructor
  · rintro g w h (rfl | rfl)
    · simp [setupForces]
    · simp [setupForces]
  · intro g w h fs hfs
    unfold setupForces at hfs
    split at hfs
    · exact absurd hfs (by simp)
    · injection hfs with hfs
      rw [← hfs]
      exact le_max_left _ _

/-- Witness for C9 at a zero-width viewport. -/
theorem C9_witness : setupForces true 0 400 = none :=
  C9_setupForces_noop_when_unmeasured.1 true 0 400 (Or.inl rfl)

/-- C10: in every built graph, every non-book node is the target of at
least one link — attribute nodes are only created together with a link
from the current book, so the base graph has no orphan attribute nodes. -/
theorem C10_no_orphan_attribute_nodes :
    ∀ (books : List BookRecord), ∀ n ∈ (buildGraphData books).nodes,
      n.type ≠ "book".toList →
      ∃ l ∈ (buildGraphData books).links, endStr l.target = n.id := by
  intro books n hn ht
  obtain ⟨l, hl, hlt⟩ := build_orphanFree books hn ht
  refine ⟨l, hl, ?_⟩
  rw [hlt]
  rfl

/-- Witness for C10 at the author node of Scenario A. -/
theorem C10_witness :
    ∃ l ∈ (buildGraphData scenarioA).links,
      endStr l.target = ("저자:A".toList : Str) :=
  C10_no_orphan_attribute_nodes scenarioA
    { id := "저자:A".toList, label := some ("A".toList), type := "저자".toList }
    (by decide) (by decide)

lemma nodes_mk (N : List Node) (L : List Link) :
    ({ nodes := N, links := L } : GraphData).nodes = N := rfl

lemma links_mk (N : List Node) (L : List Link) :
    ({ nodes := N, links := L } : GraphData).links = L := rfl

lemma mem_typeLinks_type {base : GraphData} {tab : Str} {l : Link}
    (hl : l ∈ typeLinks base tab) : l.type = tab := by
  have h := (List.mem_filter.mp hl).2
  rwa [decide_eq_true_eq] at h

lemma mem_typeLinks_sub {base : GraphData} {tab : Str} {l : Link}
    (hl : l ∈ typeLinks base tab) : l ∈ base.links := List.mem_of_mem_filter hl

lemma mem_relatedLinks_spec {base : GraphData} {tab : Str} {chip : Option Str} {l : Link}
    (hl : l ∈ relatedLinks base tab chip) :
    l ∈ base.links ∧ l.type = tab ∧
      ((getLinkEnds l).1 = targetIdOf tab chip ∨ (getLinkEnds l).2 = targetIdOf tab chip) := by
  obtain ⟨h1, h2⟩ := List.mem_filter.mp hl
  rw [decide_eq_true_eq] at h2
  exact ⟨h1, h2.1, h2.2⟩

lemma nodes_filter_ne_nil_of_link {books : List BookRecord} {R : List Link} {init : List Str}
    (hsub : ∀ l ∈ R, l ∈ (buildGraphData books).links) {l0 : Link} (hl0 : l0 ∈ R) :
    (buildGraphData books).nodes.filter (fun n => decide (n.id ∈ collectIds R init)) ≠ [] := by
  obtain ⟨s, t, hsrc, htgt, ⟨ns, hns, hnsid, hnst⟩, hattr, hty⟩ :=
    build_linkOk books (hsub l0 hl0)
  refine List.ne_nil_of_mem (List.mem_filter.mpr ⟨hns, ?_⟩)
  rw [decide_eq_true_eq]
  refine (mem_collectIds _ _ _).mpr (Or.inr ⟨l0, hl0, Or.inl ?_⟩)
  rw [hnsid, show (getLinkEnds l0).1 = endStr l0.source from rfl, hsrc]
  rfl

lemma typeLinks_of_filtered (base : GraphData) (tab : Str) (N : List Node) :
    typeLinks { nodes := N, links := (typeLinks base tab).map normalizeLink } tab
      = (typeLinks base tab).map normalizeLink := by
  show ((typeLinks base tab).map normalizeLink).filter (fun l => decide (l.type = tab))
      = (typeLinks base tab).map normalizeLink
  refine List.filter_eq_self.mpr ?_
  intro l hl
  obtain ⟨l0, hl0, rfl⟩ := List.mem_map.mp hl
  rw [decide_eq_true_eq, normalizeLink_type]
  exact mem_typeLinks_type hl0

lemma relatedLinks_of_filtered (base : GraphData) (tab : Str) (chip : Option Str) (N : List Node) :
    relatedLinks { nodes := N, links := (relatedLinks base tab chip).map normalizeLink } tab chip
      = (relatedLinks base tab chip).map normalizeLink := by
  show ((relatedLinks base tab chip).map normalizeLink).filter
      (fun l => decide (l.type = tab ∧
        ((getLinkEnds l).1 = targetIdOf tab chip ∨ (getLinkEnds l).2 = targetIdOf tab chip)))
      = (relatedLinks base tab chip).map normalizeLink
  refine List.filter_eq_self.mpr ?_
  intro l hl
  obtain ⟨l0, hl0, rfl⟩ := List.mem_map.mp hl
  rw [decide_eq_true_eq, normalizeLink_type, normalizeLink_ends]
  obtain ⟨h1, h2, h3⟩ := mem_relatedLinks_spec hl0
  exact ⟨h2, h3⟩

lemma filter_nodeIds_collapse (base : GraphData) (R : List Link) (init : List Str) :
    ((base.nodes.filter fun n => decide (n.id ∈ collectIds R init)).filter
        fun n => decide (n.id ∈ collectIds (R.map normalizeLink) init))
      = base.nodes.filter fun n => decide (n.id ∈ collectIds R init) := by
  refine List.filter_eq_self.mpr ?_
  intro n hn
  rw [decide_eq_true_eq, collectIds_map_normalize]
  have h := (List.mem_filter.mp hn).2
  rwa [decide_eq_true_eq] at h

lemma filter_filter_self (l : List Node) (p : Node → Bool) :
    (l.filter p).filter p = l.filter p :=
  List.filter_eq_self.mpr fun _ ha => (List.mem_filter.mp ha).2

/-- C8: filtering an already-filtered graph again with the same tab and
chip is a no-op: the node list and link list are unchanged. -/
theorem C8_filter_idempotent :
    ∀ (books : List BookRecord) (tab : Str) (chip : Option Str),
      filteredGraph (filteredGraph (buildGraphData books) tab chip) tab chip
        = filteredGraph (buildGraphData books) tab chip := by
  intro books tab chip
  by_cases hemp : (buildGraphData books).nodes = []
  · rw [filteredGraph_empty tab chip hemp, filteredGraph_empty tab chip rfl]
  by_cases htab : tab = tabAll
  · subst htab
    rw [filteredGraph_all chip hemp]
    have hlitne : ({ nodes := (buildGraphData books).nodes,
                     links := (buildGraphData books).links.map normalizeLink }
        : GraphData).nodes ≠ [] := hemp
    rw [filteredGraph_all chip hlitne, nodes_mk, links_mk, map_normalizeLink_norm]
  by_cases hchip : truthyS chip = true
  · rw [filteredGraph_chip hemp htab hchip]
    by_cases hR : relatedLinks (buildGraphData books) tab chip = []
    · rw [hR, List.map_nil]
      by_cases hN : (buildGraphData books).nodes.filter
          (fun n => decide (n.id ∈ collectIds ([] : List Link) [targetIdOf tab chip])) = []
      · rw [hN]
        have hnil : ({ nodes := [], links := [] } : GraphData).nodes = [] := rfl
        rw [filteredGraph_empty tab chip hnil]
      · have hlitne : ({ nodes := (buildGraphData books).nodes.filter
                           (fun n => decide (n.id ∈ collectIds ([] : List Link)
                             [targetIdOf tab chip])),
                         links := [] } : GraphData).nodes ≠ [] := hN
        rw [filteredGraph_chip hlitne htab hchip]
        have hRlit : relatedLinks { nodes := (buildGraphData books).nodes.filter
                                      (fun n => decide (n.id ∈ collectIds ([] : List Link)
                                        [targetIdOf tab chip])),
                                    links := [] } tab chip = [] := rfl
        rw [hRlit, List.map_nil, nodes_mk, filter_filter_self]
    · have hN1ne : (buildGraphData books).nodes.filter
          (fun n => decide (n.id ∈ collectIds (relatedLinks (buildGraphData books) tab chip)
            [targetIdOf tab chip])) ≠ [] := by
        obtain ⟨l0, hl0⟩ := List.exists_mem_of_ne_nil _ hR
        exact nodes_filter_ne_nil_of_link (fun l hl => (mem_relatedLinks_spec hl).1) hl0
      have hlitne : ({ nodes := (buildGraphData books).nodes.filter
                         (fun n => decide (n.id ∈ collectIds
                           (relatedLinks (buildGraphData books) tab chip)
                           [targetIdOf tab chip])),
                       links := (relatedLinks (buildGraphData books) tab chip).map
                         normalizeLink } : GraphData).nodes ≠ [] := hN1ne
      rw [filteredGraph_chip hlitne htab hchip, relatedLinks_of_filtered,
        map_normalizeLink_norm, nodes_mk, filter_nodeIds_collapse]
  · have hcf : truthyS chip = false := by
      revert hchip
      cases truthyS chip <;> simp
    rw [filteredGraph_tab hemp htab hcf]
    by_cases hTL : typeLinks (buildGraphData books) tab = []
    · rw [hTL, List.map_nil]
      have hN : (buildGraphData books).nodes.filter
          (fun n => decide (n.id ∈ collectIds ([] : List Link) [])) = [] := by
        refine List.filter_eq_nil_iff.mpr ?_
        intro n hn hdec
        rw [decide_eq_true_eq] at hdec
        exact List.not_mem_nil _ hdec
      rw [hN]
      have hnil : ({ nodes := [], links := [] } : GraphData).nodes = [] := rfl
      rw [filteredGraph_empty tab chip hnil]
    · have hN1ne : (buildGraphData books).nodes.filter
          (fun n => decide (n.id ∈ collectIds (typeLinks (buildGraphData books) tab) [])) ≠ [] := by
        obtain ⟨l0, hl0⟩ := List.exists_mem_of_ne_nil _ hTL
        exact nodes_filter_ne_nil_of_link (fun l hl => mem_typeLinks_sub hl) hl0
      have hlitne : ({ nodes := (buildGraphData books).nodes.filter
                         (fun n => decide (n.id ∈ collectIds
                           (typeLinks (buildGraphData books) tab) [])),
                       links := (typeLinks (buildGraphData books) tab).map
                         normalizeLink } : GraphData).nodes ≠ [] := hN1ne
      rw [filteredGraph_tab hlitne htab hcf, typeLinks_of_filtered,
        map_normalizeLink_norm, nodes_mk, filter_nodeIds_collapse]

/-- The node-coverage half of filter soundness: every node of the graph
is an endpoint of some kept link, or is the seeded chip attribute node. -/
def EdgeCovered (g : GraphData) (seed : Option Str) : Prop :=
  ∀ n ∈ g.nodes,
    (∃ l ∈ g.links, endStr l.source = n.id ∨ endStr l.target = n.id) ∨ seed = some n.id

/-- The endpoint-presence half of filter soundness: both endpoint ids of
every kept link name nodes present in the graph. -/
def EndpointsPresent (g : GraphData) : Prop :=
  ∀ l ∈ g.links,
    (∃ n ∈ g.nodes, n.id = endStr l.source) ∧ (∃ n ∈ g.nodes, n.id = endStr l.target)

/-- The id explicitly seeded into the kept-node set: the chip's attribute
id when a chip is selected, nothing otherwise. -/
def chipSeed (tab : Str) (chip : Option Str) : Option Str :=
  if truthyS chip then some (targetIdOf tab chip) else none

lemma endpointsPresent_filtered (books : List BookRecord) (q : Link → Bool) (ids : List Str)
    (hids : ∀ l ∈ (buildGraphData books).links.filter q,
        (getLinkEnds l).1 ∈ ids ∧ (getLinkEnds l).2 ∈ ids) :
    EndpointsPresent
      { nodes := (buildGraphData books).nodes.filter fun n => decide (n.id ∈ ids),
        links := ((buildGraphData books).links.filter q).map normalizeLink } := by
  intro l' hl'
  obtain ⟨l, hl, rfl⟩ := List.mem_map.mp hl'
  have hlb : l ∈ (buildGraphData books).links := List.mem_of_mem_filter hl
  obtain ⟨s, t, hsrc, htgt, ⟨ns, hns, hnsid, hnst⟩, ⟨nt, hnt, hntid, hntt⟩, hty⟩ :=
    build_linkOk books hlb
  obtain ⟨hid1, hid2⟩ := hids l hl
  constructor
  · refine ⟨ns, List.mem_filter.mpr ⟨hns, ?_⟩, ?_⟩
    · rw [decide_eq_true_eq, hnsid]
      have he : (getLinkEnds l).1 = s := by
        rw [show (getLinkEnds l).1 = endStr l.source from rfl, hsrc]
        rfl
      rwa [he] at hid1
    · show ns.id = endStr l.source
      rw [hsrc]
      exact hnsid
  · refine ⟨nt, List.mem_filter.mpr ⟨hnt, ?_⟩, ?_⟩
    · rw [decide_eq_true_eq, hntid]
      have he : (getLinkEnds l).2 = t := by
        rw [show (getLinkEnds l).2 = endStr l.target from rfl, htgt]
        rfl
      rwa [he] at hid2
    · show nt.id = endStr l.target
      rw [htgt]
      exact hntid

/-- C6 (amended to the attribute-type tabs): for every built base graph
and every tab other than 전체, the filtered graph is sound — every kept
node is an endpoint of a kept link or is the seeded chip node, and both
endpoints of every kept link are present in the kept node set.  Under the
전체 tab the first half fails (see the counterexample): every base node is
kept regardless of incident edges. -/
theorem C6_filter_soundness :
    ∀ (books : List BookRecord) (tab : Str) (chip : Option Str), tab ≠ tabAll →
      EdgeCovered (filteredGraph (buildGraphData books) tab chip) (chipSeed tab chip) ∧
      EndpointsPresent (filteredGraph (buildGraphData books) tab chip) := by
  intro books tab chip ht
  by_cases hemp : (buildGraphData books).nodes = []
  · rw [filteredGraph_empty tab chip hemp]
    exact ⟨fun n hn => absurd hn (List.not_mem_nil n),
      fun l hl => absurd hl (List.not_mem_nil l)⟩
  by_cases hchip : truthyS chip = true
  · have hcs : chipSeed tab chip = some (targetIdOf tab chip) := by
      rw [chipSeed, if_pos hchip]
    rw [filteredGraph_chip hemp ht hchip]
    constructor
    · intro n hn
      obtain ⟨hnb, hp⟩ := List.mem_filter.mp hn
      rw [decide_eq_true_eq] at hp
      rcases (mem_collectIds _ _ _).mp hp with hinit | ⟨l, hl, hend⟩
      · right
        rw [hcs, List.mem_singleton.mp hinit]
      · left
        refine ⟨normalizeLink l, List.mem_map.mpr ⟨l, hl, rfl⟩, ?_⟩
        rcases hend with h | h
        · exact Or.inl h.symm
        · exact Or.inr h.symm
    · exact endpointsPresent_filtered books _ _ fun l hl =>
        ⟨(mem_collectIds _ _ _).mpr (Or.inr ⟨l, hl, Or.inl rfl⟩),
         (mem_collectIds _ _ _).mpr (Or.inr ⟨l, hl, Or.inr rfl⟩)⟩
  · have hcf : truthyS chip = false := by
      revert hchip
      cases truthyS chip <;> simp
    have hcs : chipSeed tab chip = none := by
      rw [chipSeed, if_neg (by rw [hcf]; decide)]
    rw [filteredGraph_tab hemp ht hcf]
    constructor
    · intro n hn
      obtain ⟨hnb, hp⟩ := List.mem_filter.mp hn
      rw [decide_eq_true_eq] at hp
      rcases (mem_collectIds _ _ _).mp hp with hinit | ⟨l, hl, hend⟩
      · exact absurd hinit (List.not_mem_nil _)
      · left
        refine ⟨normalizeLink l, List.mem_map.mpr ⟨l, hl, rfl⟩, ?_⟩
        rcases hend with h | h
        · exact Or.inl h.symm
        · exact Or.inr h.symm
    · exact endpointsPresent_filtered books _ _ fun l hl =>
        ⟨(mem_collectIds _ _ _).mpr (Or.inr ⟨l, hl, Or.inl rfl⟩),
         (mem_collectIds _ _ _).mpr (Or.inr ⟨l, hl, Or.inr rfl⟩)⟩

/-- Witness for C6: Scenario A filtered by tab 저자, chip A. -/
theorem C6_witness :
    EdgeCovered (filteredGraph (buildGraphData scenarioA) ("저자".toList) (some ("A".toList)))
      (chipSeed ("저자".toList) (some ("A".toList))) ∧
    EndpointsPresent
      (filteredGraph (buildGraphData scenarioA) ("저자".toList) (some ("A".toList))) :=
  C6_filter_soundness scenarioA ("저자".toList) (some ("A".toList)) (by decide)

/-- C6 counterexample: under the 전체 (ALL) tab a catalog with one bare
book (no attributes) keeps the book node although it is an endpoint of no
kept link and there is no chip seed — filter soundness as claimed fails
for the 전체 tab. -/
theorem C6_counterexample :
    ¬ EdgeCovered (filteredGraph (buildGraphData [recBare]) tabAll none)
        (chipSeed tabAll none) := by
  unfold EdgeCovered chipSeed
  decide

/-- C7 counterexample: on Scenario A, selecting chip B under tab 저자
(value B occurs in no book) yields the EMPTY graph — zero nodes and zero
links — not a one-node graph with an orphan attribute node. -/
theorem C7_counterexample :
    filteredGraph (buildGraphData scenarioA) ("저자".toList) (some ("B".toList))
      = { nodes := [], links := [] } := by
  decide

/-- C7 amended: selecting a chip whose attribute id `tab:chip` matches no
node of the built graph never throws and returns the empty zero-node,
zero-link graph: the implementation does seed the kept-id set with the
chip id, but kept nodes are drawn only from the base node list, so the
seeded id retains nothing. -/
theorem C7_missing_chip_yields_empty :
    ∀ (books : List BookRecord) (tab : Str) (chip : Option Str),
      tab ≠ tabAll → truthyS chip = true →
      targetIdOf tab chip ∉ (buildGraphData books).nodes.map Node.id →
      filteredGraph (buildGraphData books) tab chip = { nodes := [], links := [] } := by
  intro books tab chip ht hc hno
  by_cases hemp : (buildGraphData books).nodes = []
  · exact filteredGraph_empty tab chip hemp
  rw [filteredGraph_chip hemp ht hc]
  have hrel : relatedLinks (buildGraphData books) tab chip = [] := by
    rw [relatedLinks]
    refine List.filter_eq_nil_iff.mpr ?_
    intro l hl hdec
    rw [decide_eq_true_eq] at hdec
    obtain ⟨hty, hends⟩ := hdec
    obtain ⟨s, t, hsrc, htgt, ⟨ns, hns, hnsid, hnst⟩, ⟨nt, hnt, hntid, hntt⟩, hat⟩ :=
      build_linkOk books hl
    rcases hends with h | h
    · refine hno (List.mem_map.mpr ⟨ns, hns, ?_⟩)
      rw [hnsid]
      have he : (getLinkEnds l).1 = s := by
        rw [show (getLinkEnds l).1 = endStr l.source from rfl, hsrc]
        rfl
      rw [← he, h]
    · refine hno (List.mem_map.mpr ⟨nt, hnt, ?_⟩)
      rw [hntid]
      have he : (getLinkEnds l).2 = t := by
        rw [show (getLinkEnds l).2 = endStr l.target from rfl, htgt]
        rfl
      rw [← he, h]
  rw [hrel, List.map_nil]
  have hnodes : (buildGraphData books).nodes.filter
      (fun n => decide (n.id ∈ collectIds ([] : List Link) [targetIdOf tab chip])) = [] := by
    refine List.filter_eq_nil_iff.mpr ?_
    intro n hn hdec
    rw [decide_eq_true_eq] at hdec
    rcases (mem_collectIds _ _ _).mp hdec with hinit | ⟨l, hl, hend⟩
    · exact hno (List.mem_map.mpr ⟨n, hn, List.mem_singleton.mp hinit⟩)
    · exact absurd hl (List.not_mem_nil l)
  rw [hnodes]

/-- Witness for C7: Scenario B filtered by tab 저자, chip B has no node
with id 저자:B and comes out empty. -/
theorem C7_witness :
    filteredGraph (buildGraphData scenarioB) ("저자".toList) (some ("B".toList))
      = { nodes := [], links := [] } :=
  C7_missing_chip_yields_empty scenarioB ("저자".toList) (some ("B".toList))
    (by decide) (by decide) (by decide)

end BookMap
